import Mathlib

/-!
Verification of the forecasting core of the prediksi-cuaca repository
(`utils/ml_forecasting.py` and the training/ensemble/metrics sections of the
ML-forecasting page) against its natural-language specification.

Numeric conventions: python floats are modelled exactly, as rationals where the
source only uses field operations, and as real numbers where a square root
occurs (numpy/pandas standard deviations).  NaN cells of a pandas frame are
modelled as `none` in `Option`-valued columns.
-/

namespace Prediksi

/-! ### Evaluation metrics (`calculate_mape`, `calculate_metrics`) -/

/-- The `1e-10` guard added to the denominator in `calculate_mape`. -/
def mapeEps : ℚ := 1 / 10 ^ 10

/-- Mean of a list, `np.mean` (sum divided by length). -/
def npMeanQ (xs : List ℚ) : ℚ := xs.sum / xs.length

/-- `calculate_mape`: `np.mean(np.abs((y_true - y_pred) / (y_true + 1e-10))) * 100`.
The absolute value is applied to the whole quotient; the denominator is the raw
(signed) reference plus `1e-10`. -/
def calculate_mape (y_true y_pred : List ℚ) : ℚ :=
  npMeanQ (List.zipWith (fun t p => |(t - p) / (t + mapeEps)|) y_true y_pred) * 100

/-- Modelled from the spec: the MAPE formula as the specification states it,
`mean(|reference − candidate| / (|reference| + ε)) × 100`, with the absolute
value taken of the reference in the denominator. -/
def mapeSpecFormula (y_true y_pred : List ℚ) : ℚ :=
  npMeanQ (List.zipWith (fun t p => |t - p| / (|t| + mapeEps)) y_true y_pred) * 100

/-- sklearn `mean_absolute_error`: defined only for same-length, non-empty
inputs; otherwise the library raises (modelled as `none`). -/
def mean_absolute_error (y_true y_pred : List ℚ) : Option ℚ :=
  if y_true.length = y_pred.length ∧ y_true.length ≠ 0 then
    some (npMeanQ (List.zipWith (fun t p => |t - p|) y_true y_pred))
  else none

/-- sklearn `mean_squared_error`, same validity conditions. -/
def mean_squared_error (y_true y_pred : List ℚ) : Option ℚ :=
  if y_true.length = y_pred.length ∧ y_true.length ≠ 0 then
    some (npMeanQ (List.zipWith (fun t p => (t - p) ^ 2) y_true y_pred))
  else none

/-- The `{'MAE': ..., 'RMSE': ..., 'MAPE': ...}` dictionary of `calculate_metrics`. -/
structure MetricsReport where
  MAE : ℚ
  RMSE : ℝ
  MAPE : ℚ

/-- `calculate_metrics`: MAE and MSE through sklearn (which raises on
mismatched or empty inputs, modelled as `none`), `RMSE = sqrt(MSE)`, and MAPE
through `calculate_mape`. -/
noncomputable def calculate_metrics (y_true y_pred : List ℚ) : Option MetricsReport :=
  match mean_absolute_error y_true y_pred, mean_squared_error y_true y_pred with
  | some mae, some mse => some ⟨mae, Real.sqrt (mse : ℝ), calculate_mape y_true y_pred⟩
  | _, _ => none

/-- The metrics-comparison call site of the ML-forecasting page:
`model_forecast = result['forecast'][:len(api_temps_array)]` followed by
`calculate_metrics(api_temps_array, model_forecast)` — the model forecast is
truncated to the baseline length before scoring. -/
noncomputable def pageMetricsRow (api_temps forecast : List ℚ) : Option MetricsReport :=
  calculate_metrics api_temps (forecast.take api_temps.length)

/-! ### Ensemble forecasting (`ensemble_forecast`) -/

/-- In-place numpy addition `ensemble += arr` on one-dimensional arrays:
defined elementwise for equal shapes, broadcast when the right operand has
length 1, and a raised `ValueError` (modelled as `none`) otherwise. -/
def npBroadcastAdd (a b : List ℚ) : Option (List ℚ) :=
  if b.length = a.length then some (List.zipWith (· + ·) a b)
  else if b.length = 1 then some (a.map (· + b.headD 0))
  else none

/-- `ensemble_forecast(forecasts, weights=None)`: uniform weights
`[1/len(forecasts)] * len(forecasts)` when none are given, then
`ensemble = np.zeros_like(forecasts[0])` followed by
`ensemble += forecast * weight` over `zip(forecasts, weights)`.
An empty forecast list (index error on `forecasts[0]`) is `none`. -/
def ensemble_forecast (forecasts : List (List ℚ)) (weights : Option (List ℚ)) :
    Option (List ℚ) :=
  match forecasts with
  | [] => none
  | f0 :: _ =>
    let ws := match weights with
      | none => List.replicate forecasts.length (1 / (forecasts.length : ℚ))
      | some w => w
    (forecasts.zip ws).foldlM
      (fun acc fw => npBroadcastAdd acc (fw.1.map (· * fw.2)))
      (List.replicate f0.length (0 : ℚ))

/-- The ensemble section of the page: the ensemble is computed only under the
guard `if len(results) > 1:`; with one or zero successful models it is omitted. -/
def ensembleSection (successfulForecasts : List (List ℚ)) : Option (List ℚ) :=
  if successfulForecasts.length > 1 then ensemble_forecast successfulForecasts none
  else none

/-- Modelled from the spec: the straight positional weighted sum
`result[i] = sum of w_j * f_j[i]`, used to compare `ensemble_forecast`
against the specified combination. -/
def straightWeightedSum (forecasts : List (List ℚ)) (weights : List ℚ) (n : ℕ) :
    List ℚ :=
  (List.range n).map (fun i =>
    ((forecasts.zip weights).map (fun fw => fw.1.getD i 0 * fw.2)).sum)

end Prediksi

namespace Prediksi

/-! ### Helper lemmas for the ensemble fold -/

/-- Pure accumulation underlying the `ensemble_forecast` fold once all
additions are well-shaped. -/
def wsumAcc : List (List ℚ × ℚ) → List ℚ → List ℚ
  | [], acc => acc
  | p :: ps, acc => wsumAcc ps (List.zipWith (· + ·) acc (p.1.map (· * p.2)))

theorem wsumAcc_length (ps : List (List ℚ × ℚ)) (acc : List ℚ)
    (h : ∀ p ∈ ps, p.1.length = acc.length) :
    (wsumAcc ps acc).length = acc.length := by
  induction ps generalizing acc with
  | nil => rfl
  | cons p ps ih =>
    have hp : p.1.length = acc.length := h p (List.mem_cons_self _ _)
    have hlen : (List.zipWith (· + ·) acc (p.1.map (· * p.2))).length = acc.length := by
      simp [List.length_zipWith, hp]
    rw [wsumAcc, ih _ (fun q hq => by rw [hlen]; exact h q (List.mem_cons_of_mem _ hq)), hlen]

theorem ensemble_fold_eq_wsumAcc (ps : List (List ℚ × ℚ)) (acc : List ℚ)
    (h : ∀ p ∈ ps, p.1.length = acc.length) :
    ps.foldlM (fun acc fw => npBroadcastAdd acc (fw.1.map (· * fw.2))) acc
      = some (wsumAcc ps acc) := by
  induction ps generalizing acc with
  | nil => rfl
  | cons p ps ih =>
    have hp : p.1.length = acc.length := h p (List.mem_cons_self _ _)
    have hstep : npBroadcastAdd acc (p.1.map (· * p.2))
        = some (List.zipWith (· + ·) acc (p.1.map (· * p.2))) := by
      simp [npBroadcastAdd, hp]
    have hlen : (List.zipWith (· + ·) acc (p.1.map (· * p.2))).length = acc.length := by
      simp [List.length_zipWith, hp]
    rw [List.foldlM_cons, hstep]
    exact ih _ (fun q hq => by rw [hlen]; exact h q (List.mem_cons_of_mem _ hq))

theorem wsumAcc_getD (ps : List (List ℚ × ℚ)) (acc : List ℚ) (i : ℕ)
    (hi : i < acc.length) (h : ∀ p ∈ ps, p.1.length = acc.length) :
    (wsumAcc ps acc).getD i 0
      = acc.getD i 0 + (ps.map (fun p => p.1.getD i 0 * p.2)).sum := by
  induction ps generalizing acc with
  | nil => simp [wsumAcc]
  | cons p ps ih =>
    have hp : p.1.length = acc.length := h p (List.mem_cons_self _ _)
    have hlen : (List.zipWith (· + ·) acc (p.1.map (· * p.2))).length = acc.length := by
      simp [List.length_zipWith, hp]
    have hzip : (List.zipWith (· + ·) acc (p.1.map (· * p.2))).getD i 0
        = acc.getD i 0 + p.1.getD i 0 * p.2 := by
      have hi2 : i < p.1.length := hp ▸ hi
      rw [List.getD_eq_getElem?_getD, List.getElem?_zipWith,
        List.getElem?_eq_getElem hi, List.getElem?_map, List.getElem?_eq_getElem hi2]
      simp [List.getD_eq_getElem?_getD, List.getElem?_eq_getElem, hi, hi2]
    rw [wsumAcc, ih _ (hlen ▸ hi)
      (fun q hq => by rw [hlen]; exact h q (List.mem_cons_of_mem _ hq)), hzip]
    simp [add_assoc]

end Prediksi

namespace Prediksi

theorem zip_append_of_le (ws : List ℚ) (fs extra : List (List ℚ))
    (h : ws.length ≤ fs.length) : (fs ++ extra).zip ws = fs.zip ws := by
  induction ws generalizing fs with
  | nil => simp
  | cons w ws ih =>
    cases fs with
    | nil => simp at h
    | cons f fs =>
      simp only [List.cons_append, List.zip_cons_cons]
      rw [ih fs (Nat.le_of_succ_le_succ h)]


theorem ensemble_zip_eq (fs : List (List ℚ)) (ws : List ℚ) (n : ℕ)
    (h : ∀ p ∈ fs.zip ws, p.1.length = n) :
    (fs.zip ws).foldlM (fun acc fw => npBroadcastAdd acc (fw.1.map (· * fw.2)))
      (List.replicate n (0 : ℚ)) = some (straightWeightedSum fs ws n) := by
  have hrep : (List.replicate n (0 : ℚ)).length = n := List.length_replicate _ _
  have h' : ∀ p ∈ fs.zip ws, p.1.length = (List.replicate n (0 : ℚ)).length := by
    intro p hp; rw [hrep]; exact h p hp
  rw [ensemble_fold_eq_wsumAcc _ _ h']
  congr 1
  apply List.ext_getElem
  · rw [wsumAcc_length _ _ h', hrep]
    simp [straightWeightedSum]
  · intro i hi1 hi2
    have hi : i < n := by
      have := hi1; rwa [wsumAcc_length _ _ h', hrep] at this
    have hi' : i < (List.replicate n (0 : ℚ)).length := by rw [hrep]; exact hi
    have hL : (wsumAcc (fs.zip ws) (List.replicate n (0 : ℚ)))[i]
        = (wsumAcc (fs.zip ws) (List.replicate n (0 : ℚ))).getD i 0 :=
      (List.getD_eq_getElem _ _ hi1).symm
    rw [hL, wsumAcc_getD _ _ _ hi' h']
    simp [straightWeightedSum, List.getD_eq_getElem?_getD,
      List.getElem?_getD_replicate_default_eq]

/-- The custom-weights behaviour of `ensemble_forecast`, shared by several
claims: with every forecast of length `n` and exactly one weight per forecast,
the result is the straight positional weighted sum of the forecasts. -/
theorem ensemble_forecast_custom (fs : List (List ℚ)) (ws : List ℚ) (n : ℕ)
    (hne : fs ≠ []) (hlen : ∀ f ∈ fs, f.length = n) (hws : ws.length = fs.length) :
    ensemble_forecast fs (some ws) = some (straightWeightedSum fs ws n) := by
  cases fs with
  | nil => exact absurd rfl hne
  | cons f0 rest =>
    have hf0 : f0.length = n := hlen f0 (List.mem_cons_self _ _)
    have h : ∀ p ∈ (f0 :: rest).zip ws, p.1.length = n := by
      intro p hp
      exact hlen p.1 (List.of_mem_zip hp).1
    show ((f0 :: rest).zip ws).foldlM _ (List.replicate f0.length (0 : ℚ)) = _
    rw [hf0]
    exact ensemble_zip_eq _ _ _ h

theorem ensemble_forecast_none_eq (fs : List (List ℚ)) (hne : fs ≠ []) :
    ensemble_forecast fs none
      = ensemble_forecast fs (some (List.replicate fs.length (1 / (fs.length : ℚ)))) := by
  cases fs with
  | nil => exact absurd rfl hne
  | cons f0 rest => rfl

/-- C3: `ensemble_forecast` is the elementwise weighted sum: with `weights=None`
it uses uniform weights `1/N` (two equal-length forecasts combine to
`(a[i]+b[i])/2`), and a custom weight vector is used exactly as given — a
straight positional weighted sum with no renormalization. -/
theorem c3_ensemble_weighted_sum :
    (∀ a b : List ℚ, a.length = b.length →
      ensemble_forecast [a, b] none
        = some (List.zipWith (fun x y => (x + y) / 2) a b))
    ∧ (∀ (fs : List (List ℚ)) (ws : List ℚ) (n : ℕ), fs ≠ [] →
        (∀ f ∈ fs, f.length = n) → ws.length = fs.length →
        ensemble_forecast fs (some ws) = some (straightWeightedSum fs ws n)) := by
  refine ⟨?_, fun fs ws n hne hlen hws => ensemble_forecast_custom fs ws n hne hlen hws⟩
  intro a b hab
  rw [ensemble_forecast_none_eq [a, b] (by simp)]
  rw [ensemble_forecast_custom [a, b] _ a.length (by simp)
    (by intro f hf; rcases List.mem_pair.1 hf with rfl | rfl
        · rfl
        · exact hab.symm)
    (by simp)]
  congr 1
  apply List.ext_getElem
  · simp [straightWeightedSum, List.length_zipWith, hab]
  · intro i hi1 hi2
    have hia : i < a.length := by simpa [straightWeightedSum] using hi1
    have hib : i < b.length := hab ▸ hia
    simp only [straightWeightedSum, List.length_cons, List.length_nil, List.replicate,
      List.zip_cons_cons, List.zip_nil_right, List.getElem_map, List.getElem_range,
      List.getElem_zipWith, List.map_cons, List.map_nil, List.sum_cons, List.sum_nil,
      List.getD_eq_getElem _ _ hia, List.getD_eq_getElem _ _ hib]
    push_cast
    ring

/-- C3 witness: two concrete forecasts, uniform and custom weights. -/
theorem c3_witness :
    ensemble_forecast [[1, 2], [3, 4]] none = some [2, 3]
    ∧ ensemble_forecast [[1, 2], [3, 4]] (some [2, 1]) = some [5, 8] := by
  constructor
  · rw [c3_ensemble_weighted_sum.1 [1, 2] [3, 4] rfl]
    norm_num [List.zipWith]
  · rw [c3_ensemble_weighted_sum.2 [[1, 2], [3, 4]] [2, 1] 2 (by simp)
      (by intro f hf; rcases List.mem_pair.1 hf with rfl | rfl <;> rfl) rfl]
    have hr : List.range 2 = [0, 1] := rfl
    norm_num [straightWeightedSum, hr]

/-- C4 counterexample: `ensemble_forecast` itself performs no arity or length
validation.  A single forecast produces a combined result (not an error), and
a length-1 forecast silently broadcasts across a length-2 one. -/
theorem c4_counterexample :
    ensemble_forecast [[1, 2]] none ≠ none
    ∧ ensemble_forecast [[1, 2]] none = some [1, 2]
    ∧ ensemble_forecast [[1, 2], [3]] none = some [2, 5 / 2] := by
  have h1 : ensemble_forecast [[1, 2]] none
      = some [0 + 1 * (1 / ((1 : ℕ) : ℚ)), 0 + 2 * (1 / ((1 : ℕ) : ℚ))] := rfl
  have h2 : ensemble_forecast [[1, 2], [3]] none
      = some [0 + 1 * (1 / ((2 : ℕ) : ℚ)) + 3 * (1 / ((2 : ℕ) : ℚ)),
              0 + 2 * (1 / ((2 : ℕ) : ℚ)) + 3 * (1 / ((2 : ℕ) : ℚ))] := rfl
  refine ⟨by rw [h1]; exact Option.some_ne_none _, ?_, ?_⟩
  · rw [h1]; norm_num
  · rw [h2]; norm_num

/-- C4 amended: the `len(results) > 1` guard at the call site omits the
ensemble when fewer than two models succeed, but `ensemble_forecast` itself
accepts a single forecast (returning it unchanged, weight `1/1`) and, for
mismatched lengths, either raises inside the numpy addition (right length
neither equal nor 1) or silently broadcasts; no `EnsembleUnavailable`
condition exists in the code. -/
theorem c4_amended :
    (∀ res : List (List ℚ), res.length ≤ 1 → ensembleSection res = none)
    ∧ (∀ a : List ℚ, ensemble_forecast [a] none = some a)
    ∧ (∀ a b : List ℚ, b.length ≠ a.length → b.length ≠ 1 →
        ensemble_forecast [a, b] none = none) := by
  refine ⟨?_, ?_, ?_⟩
  · intro res h
    have : ¬ res.length > 1 := by omega
    simp [ensembleSection, this]
  · intro a
    rw [ensemble_forecast_none_eq [a] (by simp)]
    rw [ensemble_forecast_custom [a] _ a.length (by simp)
      (by intro f hf; rw [List.mem_singleton.1 hf]) (by simp)]
    congr 1
    apply List.ext_getElem
    · simp [straightWeightedSum]
    · intro i hi1 hi2
      have hia : i < a.length := hi2
      simp only [straightWeightedSum, List.length_singleton, List.replicate,
        List.zip_cons_cons, List.zip_nil_right, List.getElem_map, List.getElem_range,
        List.map_cons, List.map_nil, List.sum_cons, List.sum_nil,
        List.getD_eq_getElem _ _ hia]
      push_cast
      ring
  · intro a b h1 h2
    rw [ensemble_forecast_none_eq [a, b] (by simp)]
    have hw : List.replicate ([a, b].length) ((1 : ℚ) / (([a, b].length : ℕ) : ℚ))
        = [(1 : ℚ) / 2, (1 : ℚ) / 2] := by
      norm_num [List.replicate]
    rw [hw]
    show ([a, b].zip [(1 : ℚ) / 2, (1 : ℚ) / 2]).foldlM
      (fun acc fw => npBroadcastAdd acc (fw.1.map (· * fw.2)))
      (List.replicate a.length (0 : ℚ)) = none
    have hstep1 : npBroadcastAdd (List.replicate a.length (0 : ℚ))
        (a.map (· * ((1 : ℚ) / 2)))
        = some (List.zipWith (· + ·) (List.replicate a.length (0 : ℚ))
            (a.map (· * ((1 : ℚ) / 2)))) := by
      simp [npBroadcastAdd]
    have hlen1 : (List.zipWith (· + ·) (List.replicate a.length (0 : ℚ))
        (a.map (· * ((1 : ℚ) / 2)))).length = a.length := by
      simp
    have hstep2 : npBroadcastAdd
        (List.zipWith (· + ·) (List.replicate a.length (0 : ℚ))
          (a.map (· * ((1 : ℚ) / 2))))
        (b.map (· * ((1 : ℚ) / 2))) = none := by
      simp only [npBroadcastAdd, List.length_map, hlen1, h1, if_false, h2]
    simp only [List.zip_cons_cons, List.zip_nil_right, List.foldlM_cons, hstep1,
      Option.bind_eq_bind, Option.some_bind, hstep2, List.foldlM_nil, Option.none_bind]

/-- C4 witness: the guard and the raising branch at concrete inputs. -/
theorem c4_amended_witness :
    ensembleSection [[1, 2]] = none
    ∧ ensemble_forecast [[1, 2, 3], [4, 5]] none = none :=
  ⟨c4_amended.1 [[1, 2]] (by simp),
   c4_amended.2.2 [1, 2, 3] [4, 5] (by simp) (by simp)⟩

/-- C9: when the supplied weight vector is shorter than the forecast list,
`zip` silently drops the trailing forecasts: the result is the straight
weighted sum of only the first `len(weights)` forecasts, with no error or
failure condition reported. -/
theorem c9_short_weights_ignore_rest :
    ∀ (fs extra : List (List ℚ)) (ws : List ℚ) (n : ℕ), fs ≠ [] →
      ws.length = fs.length → (∀ f ∈ fs, f.length = n) →
      ensemble_forecast (fs ++ extra) (some ws)
        = some (straightWeightedSum fs ws n)
      ∧ ensemble_forecast (fs ++ extra) (some ws) = ensemble_forecast fs (some ws) := by
  intro fs extra ws n hne hws hlen
  have hfs : ensemble_forecast fs (some ws) = some (straightWeightedSum fs ws n) :=
    ensemble_forecast_custom fs ws n hne hlen hws
  have happ : ensemble_forecast (fs ++ extra) (some ws)
      = some (straightWeightedSum fs ws n) := by
    cases fs with
    | nil => exact absurd rfl hne
    | cons f0 rest =>
      have hf0 : f0.length = n := hlen f0 (List.mem_cons_self _ _)
      have hz : ((f0 :: rest) ++ extra).zip ws = (f0 :: rest).zip ws :=
        zip_append_of_le ws (f0 :: rest) extra (le_of_eq hws)
      have h : ∀ p ∈ (f0 :: rest).zip ws, p.1.length = n := by
        intro p hp
        exact hlen p.1 (List.of_mem_zip hp).1
      show (((f0 :: rest) ++ extra).zip ws).foldlM _ (List.replicate f0.length (0 : ℚ)) = _
      rw [hz, hf0]
      exact ensemble_zip_eq _ _ _ h
  exact ⟨happ, happ.trans hfs.symm⟩

/-- C9 witness: three forecasts, two weights — the third forecast is ignored. -/
theorem c9_witness :
    ensemble_forecast [[1, 2], [3, 4], [100, 200]] (some [1, 1])
      = some (straightWeightedSum [[1, 2], [3, 4]] [1, 1] 2) :=
  (c9_short_weights_ignore_rest [[1, 2], [3, 4]] [[100, 200]] [1, 1] 2
    (by simp) rfl
    (by intro f hf; rcases List.mem_pair.1 hf with rfl | rfl <;> rfl)).1

end Prediksi

namespace Prediksi

/-! ### Metrics claims -/

/-- C5 counterexample: for the reference `[-1]` and candidate `[0]`, the code's
MAPE (denominator `y_true + 1e-10`, no absolute value) differs from the spec's
formula (denominator `|y_true| + 1e-10`): the claim that the absolute value is
taken of the reference in the denominator is false for negative references. -/
theorem c5_counterexample : calculate_mape [-1] [0] ≠ mapeSpecFormula [-1] [0] := by
  simp only [calculate_mape, mapeSpecFormula, npMeanQ, List.zipWith_cons_cons,
    List.zipWith_nil_right, List.sum_cons, List.sum_nil, List.length_cons,
    List.length_nil, Nat.cast_one, add_zero]
  rw [abs_of_pos (a := ((-1 : ℚ) - 0) / (-1 + mapeEps)) (by norm_num [mapeEps]),
    abs_of_nonpos (a := (-1 : ℚ) - 0) (by norm_num),
    abs_of_nonpos (a := (-1 : ℚ)) (by norm_num)]
  norm_num [mapeEps]

theorem mape_zip_congr (y_true y_pred : List ℚ) (h : ∀ x ∈ y_true, 0 ≤ x) :
    List.zipWith (fun t p => |(t - p) / (t + mapeEps)|) y_true y_pred
      = List.zipWith (fun t p => |t - p| / (|t| + mapeEps)) y_true y_pred := by
  induction y_true generalizing y_pred with
  | nil => simp
  | cons a t ih =>
    cases y_pred with
    | nil => simp
    | cons b p =>
      simp only [List.zipWith_cons_cons]
      have ha : 0 ≤ a := h a (List.mem_cons_self _ _)
      have hpos : 0 < a + mapeEps := by
        have : (0 : ℚ) < mapeEps := by norm_num [mapeEps]
        linarith
      rw [ih p (fun x hx => h x (List.mem_cons_of_mem _ hx))]
      congr 1
      rw [abs_div, abs_of_pos hpos, abs_of_nonneg ha]

/-- C5 amended: `calculate_mape` divides by the raw (signed) reference plus
`1e-10` and takes the absolute value of the whole quotient; this coincides
with the spec's `mean(|r − c| / (|r| + ε)) × 100` exactly when every
reference value is nonnegative (so ε still guards a reference of exactly 0),
and differs for negative references. -/
theorem c5_amended (y_true y_pred : List ℚ) (h : ∀ x ∈ y_true, 0 ≤ x) :
    calculate_mape y_true y_pred = mapeSpecFormula y_true y_pred := by
  unfold calculate_mape mapeSpecFormula
  rw [mape_zip_congr y_true y_pred h]

/-- C5 witness: the spec's own worked example `[10,20,30]` vs `[12,18,33]`. -/
theorem c5_witness :
    calculate_mape [10, 20, 30] [12, 18, 33]
      = mapeSpecFormula [10, 20, 30] [12, 18, 33] :=
  c5_amended [10, 20, 30] [12, 18, 33] (by
    simp only [List.mem_cons, List.not_mem_nil, or_false]
    rintro x (rfl | rfl | rfl) <;> norm_num)

/-- C6 counterexample: the page's metrics comparison truncates the model
forecast to the baseline length before scoring — a 7-step forecast against a
3-value baseline yields a computed report (not an error), whose MAE is 0
because only the first 3 values are compared. -/
theorem c6_counterexample :
    pageMetricsRow [1, 2, 3] [1, 2, 3, 10, 10, 10, 10] ≠ none
    ∧ (pageMetricsRow [1, 2, 3] [1, 2, 3, 10, 10, 10, 10]).map (fun m => m.MAE)
        = some 0 := by
  have htake : (([1, 2, 3, 10, 10, 10, 10] : List ℚ).take
      ([1, 2, 3] : List ℚ).length) = [1, 2, 3] := rfl
  have h1 : mean_absolute_error [1, 2, 3] [1, 2, 3]
      = some (npMeanQ (List.zipWith (fun t p => |t - p|) [1, 2, 3] [1, 2, 3])) := by
    unfold mean_absolute_error
    rw [if_pos ⟨rfl, by decide⟩]
  have h2 : mean_squared_error [1, 2, 3] [1, 2, 3]
      = some (npMeanQ (List.zipWith (fun t p => (t - p) ^ 2) [1, 2, 3] [1, 2, 3])) := by
    unfold mean_squared_error
    rw [if_pos ⟨rfl, by decide⟩]
  have hcm : calculate_metrics [1, 2, 3] [1, 2, 3]
      = some ⟨npMeanQ (List.zipWith (fun t p => |t - p|) [1, 2, 3] [1, 2, 3]),
          Real.sqrt
            ((npMeanQ (List.zipWith (fun t p => (t - p) ^ 2) [1, 2, 3] [1, 2, 3]) : ℚ) : ℝ),
          calculate_mape [1, 2, 3] [1, 2, 3]⟩ := by
    unfold calculate_metrics
    rw [h1, h2]
  constructor
  · unfold pageMetricsRow
    rw [htake, hcm]
    exact Option.some_ne_none _
  · unfold pageMetricsRow
    rw [htake, hcm]
    simp only [Option.map_some']
    congr 1
    show npMeanQ (List.zipWith (fun t p => |t - p|) [1, 2, 3] [1, 2, 3]) = 0
    norm_num [npMeanQ, List.zipWith_cons_cons]

/-- C6 amended: `calculate_metrics` itself rejects mismatched lengths with a
raised error (sklearn's consistency check), never truncating; but the page's
call site truncates the model forecast to the baseline length before calling,
so a baseline no longer than the forecast always produces a computed report
instead of a reported mismatch. -/
theorem c6_amended :
    (∀ y_true y_pred : List ℚ, y_true.length ≠ y_pred.length →
      calculate_metrics y_true y_pred = none)
    ∧ (∀ api_temps forecast : List ℚ, api_temps.length ≤ forecast.length →
        api_temps ≠ [] → (pageMetricsRow api_temps forecast).isSome = true) := by
  constructor
  · intro t p h
    unfold calculate_metrics
    have h1 : mean_absolute_error t p = none := by
      unfold mean_absolute_error
      rw [if_neg (by intro hc; exact h hc.1)]
    rw [h1]
  · intro api fc hle hne
    have hlen : api.length = (fc.take api.length).length := by
      rw [List.length_take]
      omega
    have hnz : api.length ≠ 0 := by
      intro h0
      exact hne (List.length_eq_zero.1 h0)
    unfold pageMetricsRow calculate_metrics mean_absolute_error mean_squared_error
    rw [if_pos ⟨hlen, hnz⟩, if_pos ⟨hlen, hnz⟩]
    rfl

/-- C6 witness: a concrete mismatch is rejected and a concrete truncating
call site succeeds. -/
theorem c6_witness :
    calculate_metrics [1, 2] [1, 2, 3] = none
    ∧ (pageMetricsRow [1, 2] [4, 5, 6]).isSome = true :=
  ⟨c6_amended.1 [1, 2] [1, 2, 3] (by decide),
   c6_amended.2 [1, 2] [4, 5, 6] (by decide) (by decide)⟩

end Prediksi

namespace Prediksi

/-! ### The training loop of the ML-forecasting page (Orchestrator) -/

/-- The four selectable model variants of the page. -/
inductive Model where
  | arima
  | prophet
  | lstm
  | xgboost
deriving DecidableEq

/-- What one `train_*` call does: returns a result dict, returns `None`
(every `train_*` function catches its own exceptions and returns `None`), or
raises out of the call (caught by the loop's `except` clause). -/
inductive Outcome (R : Type) where
  | ok (result : R)
  | failed
  | raised (msg : String)

def Outcome.isOk {R : Type} : Outcome R → Bool
  | .ok _ => true
  | _ => false

def Outcome.isFailed {R : Type} : Outcome R → Bool
  | .failed => true
  | _ => false

/-- The terminal user-visible record the loop emits for one variant:
`✅ trained (…s)`, `❌ failed`, or the `st.error` message of the `except`
branch. -/
inductive StatusKind (T : Type) where
  | trained (duration : T)
  | failedS
  | errorS (msg : String)

def StatusKind.isFailure {T : Type} : StatusKind T → Bool
  | .failedS => true
  | _ => false

/-- The state the page accumulates across the loop: the `results` dict, the
`training_times` dict, and the emitted per-variant status records. -/
structure LoopState (R T : Type) where
  results : List (Model × R)
  times : List (Model × T)
  statuses : List (Model × StatusKind T)

/-- One iteration of `for idx, model_name in enumerate(models_to_train)`:
on a truthy result, store it and its wall-clock duration and report success;
on `None`, only report failure; on an exception, only report the error.
`dur m` is the oracle for `time.time() - start_time` of variant `m`. -/
def loopStep {R T : Type} (train : Model → Outcome R) (dur : Model → T)
    (s : LoopState R T) (m : Model) : LoopState R T :=
  match train m with
  | .ok r => ⟨s.results ++ [(m, r)], s.times ++ [(m, dur m)],
      s.statuses ++ [(m, .trained (dur m))]⟩
  | .failed => ⟨s.results, s.times, s.statuses ++ [(m, .failedS)]⟩
  | .raised e => ⟨s.results, s.times, s.statuses ++ [(m, .errorS e)]⟩

/-- The training loop of the page over the selected variants, in order. -/
def trainingLoop {R T : Type} (train : Model → Outcome R) (dur : Model → T)
    (models : List Model) : LoopState R T :=
  models.foldl (loopStep train dur) ⟨[], [], []⟩

def statusOf {R T : Type} (o : Outcome R) (t : T) : StatusKind T :=
  match o with
  | .ok _ => .trained t
  | .failed => .failedS
  | .raised e => .errorS e

theorem trainingLoop_foldl {R T : Type} (train : Model → Outcome R) (dur : Model → T) :
    ∀ (models : List Model) (s : LoopState R T),
      models.foldl (loopStep train dur) s
        = ⟨s.results ++ models.filterMap (fun m =>
              match train m with | .ok r => some (m, r) | _ => none),
           s.times ++ models.filterMap (fun m =>
              match train m with | .ok _ => some (m, dur m) | _ => none),
           s.statuses ++ models.map (fun m => (m, statusOf (train m) (dur m)))⟩ := by
  intro models
  induction models with
  | nil => intro s; simp
  | cons m ms ih =>
    intro s
    rw [List.foldl_cons, ih]
    simp only [List.filterMap_cons, List.map_cons]
    cases h : train m <;>
      simp [loopStep, statusOf, h, List.append_assoc]

theorem trainingLoop_spec {R T : Type} (train : Model → Outcome R) (dur : Model → T)
    (models : List Model) :
    (trainingLoop train dur models).results
        = models.filterMap (fun m =>
            match train m with | .ok r => some (m, r) | _ => none)
    ∧ (trainingLoop train dur models).times
        = models.filterMap (fun m =>
            match train m with | .ok _ => some (m, dur m) | _ => none)
    ∧ (trainingLoop train dur models).statuses
        = models.map (fun m => (m, statusOf (train m) (dur m))) := by
  unfold trainingLoop
  rw [trainingLoop_foldl]
  exact ⟨by simp, by simp, by simp⟩

/-- C2 counterexample: four selected variants of which exactly two fail
(`train` returns `None` for Prophet and XGBoost).  The loop does return
exactly 2 results and emit exactly 2 failure records, but it does not record
a wall-clock duration for every selected variant: failed variants get no
`training_times` entry, refuting the claim as stated. -/
theorem c2_counterexample :
    ((trainingLoop
        (fun m => match m with
          | .arima => Outcome.ok (0 : ℚ)
          | .prophet => Outcome.failed
          | .lstm => Outcome.ok 1
          | .xgboost => Outcome.failed)
        (fun _ => (1 : ℚ))
        [Model.arima, Model.prophet, Model.lstm, Model.xgboost]).results.length = 2
      ∧ (trainingLoop
        (fun m => match m with
          | .arima => Outcome.ok (0 : ℚ)
          | .prophet => Outcome.failed
          | .lstm => Outcome.ok 1
          | .xgboost => Outcome.failed)
        (fun _ => (1 : ℚ))
        [Model.arima, Model.prophet, Model.lstm, Model.xgboost]).statuses.countP
          (fun p => p.2.isFailure) = 2)
    ∧ ¬ (∀ m ∈ [Model.arima, Model.prophet, Model.lstm, Model.xgboost],
          m ∈ (trainingLoop
            (fun m => match m with
              | .arima => Outcome.ok (0 : ℚ)
              | .prophet => Outcome.failed
              | .lstm => Outcome.ok 1
              | .xgboost => Outcome.failed)
            (fun _ => (1 : ℚ))
            [Model.arima, Model.prophet, Model.lstm, Model.xgboost]).times.map
              Prod.fst) := by
  decide

theorem mapfst_filterMap_ok {R A : Type} (train : Model → Outcome R)
    (g : Model → A) (models : List Model) :
    (models.filterMap (fun m =>
        match train m with | .ok _ => some (m, g m) | _ => none)).map Prod.fst
      = models.filter (fun m => (train m).isOk) := by
  induction models with
  | nil => rfl
  | cons m ms ih =>
    rw [List.filterMap_cons, List.filter_cons]
    cases h : train m <;> simp [Outcome.isOk, ih]

theorem mapfst_filterMap_result {R : Type} (train : Model → Outcome R)
    (models : List Model) :
    (models.filterMap (fun m =>
        match train m with | .ok r => some (m, r) | _ => none)).map Prod.fst
      = models.filter (fun m => (train m).isOk) := by
  induction models with
  | nil => rfl
  | cons m ms ih =>
    rw [List.filterMap_cons, List.filter_cons]
    cases h : train m <;> simp [Outcome.isOk, ih]

/-- C2 amended: the loop visits the selected variants in the caller-given
order and isolates failures (an exception becomes an error record and later
variants still run); it stores exactly one result per successful variant and
emits exactly one terminal status per variant — in particular one failure
record per variant whose training returned `None` — but it records a
wall-clock duration only for the successful variants: a failed variant gets
no `training_times` entry. -/
theorem c2_amended {R T : Type} (train : Model → Outcome R) (dur : Model → T)
    (models : List Model) :
    (trainingLoop train dur models).results.map Prod.fst
        = models.filter (fun m => (train m).isOk)
    ∧ (trainingLoop train dur models).statuses.map Prod.fst = models
    ∧ (trainingLoop train dur models).statuses.countP (fun p => p.2.isFailure)
        = models.countP (fun m => (train m).isFailed)
    ∧ (trainingLoop train dur models).times.map Prod.fst
        = (trainingLoop train dur models).results.map Prod.fst := by
  obtain ⟨hr, ht, hs⟩ := trainingLoop_spec train dur models
  refine ⟨?_, ?_, ?_, ?_⟩
  · rw [hr, mapfst_filterMap_result]
  · rw [hs, List.map_map]
    have hid : (Prod.fst ∘ fun m => (m, statusOf (train m) (dur m)))
        = (id : Model → Model) := by
      funext m; rfl
    rw [hid, List.map_id]
  · rw [hs, List.countP_map]
    apply List.countP_congr
    intro m _
    cases h : train m <;> simp [statusOf, StatusKind.isFailure, Outcome.isFailed, h]
  · rw [hr, ht, mapfst_filterMap_result, mapfst_filterMap_ok]

end Prediksi

namespace Prediksi

/-! ### Feature engineering: the pandas frame model

A frame is the `date` column (never NaN) plus named float columns whose cells
may be NaN (`none`).  Column assignment `df[name] = v` replaces an existing
column in place or appends a new one at the end, as pandas does. -/

/-- The calendar components the code reads off a `datetime64` value
(`dt.dayofweek`, `dt.day`, `dt.month`; `dt.quarter` is derived from the
month). -/
structure Date where
  dayofweek : ℕ
  day : ℕ
  month : ℕ
deriving Inhabited, DecidableEq

structure Frame where
  dates : List Date
  cols : List (String × List (Option ℝ))
deriving Inhabited

def Frame.nrows (df : Frame) : ℕ := df.dates.length

/-- `df[name]` (empty when the column is missing; the claims only read
columns that exist). -/
def Frame.colD (df : Frame) (name : String) : List (Option ℝ) :=
  match df.cols.find? (fun c => decide (c.1 = name)) with
  | some c => c.2
  | none => []

/-- `df[name] = v`: overwrite in place if present, else append. -/
def Frame.addCol (df : Frame) (name : String) (v : List (Option ℝ)) : Frame :=
  if df.cols.any (fun c => decide (c.1 = name)) then
    { df with cols := df.cols.map (fun c => if c.1 = name then (name, v) else c) }
  else
    { df with cols := df.cols ++ [(name, v)] }

/-- Does row `i` have a defined value in every column? -/
def Frame.rowAllSome (df : Frame) (i : ℕ) : Bool :=
  df.cols.all (fun c => (c.2.getD i none).isSome)

/-- The indices of the rows `dropna` keeps. -/
def Frame.keepRows (df : Frame) : List ℕ :=
  (List.range df.nrows).filter (fun i => df.rowAllSome i)

/-- `df.dropna()`: keep exactly the rows whose every cell is defined. -/
def Frame.dropna (df : Frame) : Frame :=
  ⟨df.keepRows.filterMap (fun i => df.dates[i]?),
   df.cols.map (fun c => (c.1, df.keepRows.filterMap (fun i => c.2[i]?)))⟩

/-- `series.shift(k)`: the value at row `i` becomes the value at row `i - k`,
the first `k` rows become NaN, and the length is unchanged. -/
def shiftCol (k : ℕ) (xs : List (Option ℝ)) : List (Option ℝ) :=
  (List.replicate k none ++ xs).take xs.length

/-- `create_time_features`: works on `df.copy()` (here: a pure value) and
appends day-of-week, day-of-month, month, quarter and weekend columns.
`is_weekend` is `(df['day_of_week'] >= 5).astype(int)`; the `day_of_week`
column was just assigned from the dates, so its value at row `r` is
`dayofweek` of date `r`. -/
noncomputable def timeFeaturesF (df : Frame) : Frame :=
  let d1 := df.addCol "day_of_week" (df.dates.map (fun dt => some (dt.dayofweek : ℝ)))
  let d2 := d1.addCol "day_of_month" (d1.dates.map (fun dt => some (dt.day : ℝ)))
  let d3 := d2.addCol "month" (d2.dates.map (fun dt => some (dt.month : ℝ)))
  let d4 := d3.addCol "quarter"
    (d3.dates.map (fun dt => some ((((dt.month - 1) / 3 + 1 : ℕ) : ℝ))))
  d4.addCol "is_weekend"
    (d4.dates.map (fun dt => some (if 5 ≤ dt.dayofweek then (1 : ℝ) else 0)))

/-- `create_lag_features`: for each lag `k`, append
`df[target].shift(k)` as column `target_lag_k` (on a copy). -/
def lagFeaturesF (df : Frame) (target : String) (lags : List ℕ := [1, 2, 3, 7]) :
    Frame :=
  lags.foldl (fun d lag =>
    d.addCol (target ++ "_lag_" ++ toString lag) (shiftCol lag (d.colD target))) df

/-- The trailing window of `w` rows ending at (and including) row `i`. -/
def rollingWindow (w : ℕ) (xs : List (Option ℝ)) (i : ℕ) : List (Option ℝ) :=
  (xs.take (i + 1)).drop (i + 1 - w)

noncomputable def npMeanR (xs : List ℝ) : ℝ := xs.sum / xs.length

/-- `series.rolling(window=w).mean()`: NaN until the window holds `w` defined
values (`min_periods` defaults to the window size), then the mean of the
trailing `w` rows, current row included. -/
noncomputable def rollingMeanCol (w : ℕ) (xs : List (Option ℝ)) : List (Option ℝ) :=
  (List.range xs.length).map (fun i =>
    if i + 1 < w ∨ ((rollingWindow w xs i).any fun o => o.isNone) = true then none
    else some (npMeanR ((rollingWindow w xs i).filterMap id)))

/-- Pandas sample standard deviation (`ddof=1`); the `w = 1` degenerate case
(where pandas yields NaN and this model yields 0) never occurs in the code,
whose windows are 7, 14 and 30. -/
noncomputable def sampleStdR (xs : List ℝ) : ℝ :=
  Real.sqrt ((xs.map (fun x => (x - npMeanR xs) ^ 2)).sum / ((xs.length - 1 : ℕ) : ℝ))

/-- `series.rolling(window=w).std()`, same definedness as the rolling mean. -/
noncomputable def rollingStdCol (w : ℕ) (xs : List (Option ℝ)) : List (Option ℝ) :=
  (List.range xs.length).map (fun i =>
    if i + 1 < w ∨ ((rollingWindow w xs i).any fun o => o.isNone) = true then none
    else some (sampleStdR ((rollingWindow w xs i).filterMap id)))

/-- `create_rolling_features`: for each window `w`, append the rolling mean
and then the rolling std of the target (on a copy); the std reads the target
column after the mean column was assigned. -/
noncomputable def rollingFeaturesF (df : Frame) (target : String)
    (windows : List ℕ := [7, 14, 30]) : Frame :=
  windows.foldl (fun d w =>
    let d1 := d.addCol (target ++ "_rolling_mean_" ++ toString w)
      (rollingMeanCol w (d.colD target))
    d1.addCol (target ++ "_rolling_std_" ++ toString w)
      (rollingStdCol w (d1.colD target))) df

end Prediksi

namespace Prediksi

/-! ### Frame lemmas -/

theorem find?_map_replace (cols : List (String × List (Option ℝ))) (name : String)
    (v : List (Option ℝ)) (h : cols.any (fun c => decide (c.1 = name)) = true) :
    (cols.map (fun c => if c.1 = name then (name, v) else c)).find?
        (fun c => decide (c.1 = name)) = some (name, v) := by
  induction cols with
  | nil => simp at h
  | cons c cs ih =>
    by_cases hc : c.1 = name
    · simp [hc]
    · simp only [List.any_cons, Bool.or_eq_true, decide_eq_true_eq] at h
      rcases h with h | h
      · exact absurd h hc
      · simp only [List.map_cons, if_neg hc]
        rw [List.find?_cons_of_neg _ (by simpa using hc)]
        exact ih (by simpa using h)

theorem find?_append_self (cols : List (String × List (Option ℝ))) (name : String)
    (v : List (Option ℝ)) (h : cols.any (fun c => decide (c.1 = name)) = false) :
    (cols ++ [(name, v)]).find? (fun c => decide (c.1 = name)) = some (name, v) := by
  induction cols with
  | nil => simp
  | cons c cs ih =>
    simp only [List.any_cons, Bool.or_eq_false_iff] at h
    rw [List.cons_append, List.find?_cons_of_neg _ (by simpa using h.1)]
    exact ih h.2

/-- Reading back the column just assigned gives the assigned values. -/
theorem addCol_colD (df : Frame) (name : String) (v : List (Option ℝ)) :
    (df.addCol name v).colD name = v := by
  unfold Frame.addCol Frame.colD
  by_cases h : df.cols.any (fun c => decide (c.1 = name)) = true
  · rw [if_pos h]
    simp only
    rw [find?_map_replace _ _ _ h]
  · rw [if_neg h]
    simp only
    rw [find?_append_self _ _ _ (by revert h; cases df.cols.any (fun c => decide (c.1 = name)) <;> simp)]

/-- Assigning one column leaves every other column unchanged. -/
theorem colD_addCol_ne (df : Frame) (name name' : String) (v : List (Option ℝ))
    (h : name' ≠ name) : (df.addCol name v).colD name' = df.colD name' := by
  unfold Frame.addCol Frame.colD
  by_cases hany : df.cols.any (fun c => decide (c.1 = name)) = true
  · rw [if_pos hany]
    simp only
    have : (df.cols.map (fun c => if c.1 = name then (name, v) else c)).find?
        (fun c => decide (c.1 = name'))
        = (df.cols.find? (fun c => decide (c.1 = name'))).map
            (fun c => if c.1 = name then (name, v) else c) := by
      induction df.cols with
      | nil => rfl
      | cons c cs ih =>
        by_cases hc : c.1 = name
        · have hc' : ¬ ((name, v).1 = name') := fun e => h e.symm
          have hcne : ¬ (c.1 = name') := by rw [hc]; exact fun e => h e.symm
          simp only [List.map_cons, if_pos hc]
          rw [List.find?_cons_of_neg _ (by simpa using hc'),
            List.find?_cons_of_neg _ (by simpa using hcne)]
          exact ih
        · simp only [List.map_cons, if_neg hc]
          by_cases hc2 : c.1 = name'
          · rw [List.find?_cons_of_pos _ (by simpa using hc2),
              List.find?_cons_of_pos _ (by simpa using hc2)]
            simp [if_neg hc]
          · rw [List.find?_cons_of_neg _ (by simpa using hc2),
              List.find?_cons_of_neg _ (by simpa using hc2)]
            exact ih
    rw [this]
    cases hf : df.cols.find? (fun c => decide (c.1 = name')) with
    | none => rfl
    | some c =>
      have hc' : c.1 = name' := by
        have := List.find?_some hf
        simpa using this
      simp only [Option.map_some']
      rw [if_neg (by rw [hc']; exact h)]
  · rw [if_neg hany]
    simp only
    rw [List.find?_append]
    cases hf : df.cols.find? (fun c => decide (c.1 = name')) with
    | some c => rfl
    | none =>
      simp only [Option.none_or]
      rw [List.find?_cons_of_neg _ (by simpa using fun e => h e.symm)]
      rfl

theorem shiftCol_getD (k i : ℕ) (xs : List (Option ℝ)) (hi : i < xs.length) :
    (shiftCol k xs).getD i none
      = if i < k then none else xs.getD (i - k) none := by
  unfold shiftCol
  rw [List.getD_eq_getElem?_getD, List.getElem?_take, if_pos hi]
  by_cases hik : i < k
  · rw [if_pos hik, List.getElem?_append]
    simp [List.getElem?_replicate, hik]
  · rw [if_neg hik, List.getElem?_append]
    simp [List.getElem?_replicate, hik, List.getD_eq_getElem?_getD]

end Prediksi

namespace Prediksi

theorem find?_map_snd (keep : List ℕ)
    (cols : List (String × List (Option ℝ))) (name : String) :
    (cols.map (fun c => (c.1, keep.filterMap (fun i => c.2[i]?)))).find?
        (fun c => decide (c.1 = name))
      = (cols.find? (fun c => decide (c.1 = name))).map
          (fun c => (c.1, keep.filterMap (fun i => c.2[i]?))) := by
  induction cols with
  | nil => rfl
  | cons c cs ih =>
    by_cases hc : c.1 = name
    · rw [List.map_cons, List.find?_cons_of_pos _ (by simpa using hc),
        List.find?_cons_of_pos _ (by simpa using hc)]
      rfl
    · rw [List.map_cons, List.find?_cons_of_neg _ (by simpa using hc),
        List.find?_cons_of_neg _ (by simpa using hc), ih]

/-- Every value surviving `dropna` is a defined value of the original column:
nothing is defaulted or imputed. -/
theorem dropna_mem (df : Frame) (name : String) (x : Option ℝ)
    (hx : x ∈ df.dropna.colD name) : x.isSome = true ∧ x ∈ df.colD name := by
  unfold Frame.dropna Frame.colD at hx
  unfold Frame.colD
  dsimp only at hx
  rw [find?_map_snd] at hx
  cases hf : df.cols.find? (fun c => decide (c.1 = name)) with
  | none => rw [hf] at hx; simp at hx
  | some c =>
    rw [hf] at hx
    simp only [Option.map_some'] at hx
    rw [List.mem_filterMap] at hx
    obtain ⟨i, hikeep, hget⟩ := hx
    have hall : df.rowAllSome i = true := by
      have h2 := hikeep
      unfold Frame.keepRows at h2
      exact (List.mem_filter.1 h2).2
    have hcmem : c ∈ df.cols := List.mem_of_find?_eq_some hf
    have hsome : (c.2.getD i none).isSome = true := by
      unfold Frame.rowAllSome at hall
      rw [List.all_eq_true] at hall
      exact hall c hcmem
    have hgd : c.2.getD i none = x := by
      rw [List.getD_eq_getElem?_getD, hget]
      rfl
    rw [hgd] at hsome
    refine ⟨hsome, ?_⟩
    obtain ⟨hlt, hei⟩ := List.getElem?_eq_some.1 hget
    exact hei ▸ List.getElem_mem hlt

theorem rollingMeanCol_getD (w : ℕ) (xs : List (Option ℝ)) (i : ℕ)
    (hi : i < xs.length) :
    (rollingMeanCol w xs).getD i none
      = if i + 1 < w ∨ ((rollingWindow w xs i).any fun o => o.isNone) = true then none
        else some (npMeanR ((rollingWindow w xs i).filterMap id)) := by
  unfold rollingMeanCol
  rw [List.getD_eq_getElem _ _ (by simpa using hi)]
  simp [List.getElem_map, List.getElem_range]

theorem rollingStdCol_getD (w : ℕ) (xs : List (Option ℝ)) (i : ℕ)
    (hi : i < xs.length) :
    (rollingStdCol w xs).getD i none
      = if i + 1 < w ∨ ((rollingWindow w xs i).any fun o => o.isNone) = true then none
        else some (sampleStdR ((rollingWindow w xs i).filterMap id)) := by
  unfold rollingStdCol
  rw [List.getD_eq_getElem _ _ (by simpa using hi)]
  simp [List.getElem_map, List.getElem_range]

theorem str_len_ne {a b : String} (h : a.length ≠ b.length) : a ≠ b :=
  fun e => h (by rw [e])

theorem mean_std_name_ne (t : String) (w : ℕ) :
    t ++ "_rolling_mean_" ++ toString w ≠ t ++ "_rolling_std_" ++ toString w := by
  apply str_len_ne
  have h1 : ("_rolling_mean_" : String).length = 14 := rfl
  have h2 : ("_rolling_std_" : String).length = 13 := rfl
  simp only [String.length_append, h1, h2]
  omega

theorem target_mean_name_ne (t : String) (w : ℕ) :
    t ≠ t ++ "_rolling_mean_" ++ toString w := by
  apply str_len_ne
  have h1 : ("_rolling_mean_" : String).length = 14 := rfl
  simp only [String.length_append, h1]
  omega

theorem rollingF_colD_mean (df : Frame) (t : String) (w : ℕ) :
    (rollingFeaturesF df t [w]).colD (t ++ "_rolling_mean_" ++ toString w)
      = rollingMeanCol w (df.colD t) := by
  have e : rollingFeaturesF df t [w]
      = (df.addCol (t ++ "_rolling_mean_" ++ toString w)
          (rollingMeanCol w (df.colD t))).addCol
          (t ++ "_rolling_std_" ++ toString w)
          (rollingStdCol w ((df.addCol (t ++ "_rolling_mean_" ++ toString w)
            (rollingMeanCol w (df.colD t))).colD t)) := rfl
  rw [e, colD_addCol_ne _ _ _ _ (mean_std_name_ne t w), addCol_colD]

theorem rollingF_colD_std (df : Frame) (t : String) (w : ℕ) :
    (rollingFeaturesF df t [w]).colD (t ++ "_rolling_std_" ++ toString w)
      = rollingStdCol w (df.colD t) := by
  have e : rollingFeaturesF df t [w]
      = (df.addCol (t ++ "_rolling_mean_" ++ toString w)
          (rollingMeanCol w (df.colD t))).addCol
          (t ++ "_rolling_std_" ++ toString w)
          (rollingStdCol w ((df.addCol (t ++ "_rolling_mean_" ++ toString w)
            (rollingMeanCol w (df.colD t))).colD t)) := rfl
  rw [e, addCol_colD]
  congr 1
  exact colD_addCol_ne _ _ _ _ (target_mean_name_ne t w)

end Prediksi

namespace Prediksi

theorem getD_eq_of_take_eq {xs ys : List (Option ℝ)} {n j : ℕ}
    (h : xs.take n = ys.take n) (hj : j < n) (d : Option ℝ) :
    xs.getD j d = ys.getD j d := by
  rw [List.getD_eq_getElem?_getD, List.getD_eq_getElem?_getD]
  have hq : xs[j]? = ys[j]? := by
    have h1 : (xs.take n)[j]? = (ys.take n)[j]? := by rw [h]
    rw [List.getElem?_take, List.getElem?_take, if_pos hj, if_pos hj] at h1
    exact h1
  rw [hq]

/-- A 5-row example frame whose target series is `[1,2,3,4,5]`. -/
def exampleFrame : Frame :=
  ⟨List.replicate 5 ⟨0, 1, 1⟩,
   [("temperature_2m_mean", [some 1, some 2, some 3, some 4, some 5])]⟩

/-- C7: the lag operation appends a column whose row `i` holds the target at
row `i − k` (NaN for the first `k` rows); on the series `[1,2,3,4,5]` with
lag 1 the derived column is `[NaN, 1, 2, 3, 4]`; and `dropna` then removes
the undefined rows, keeping the original values — nothing is defaulted to 0
or filled from the future. -/
theorem c7_lag_features :
    (∀ (df : Frame) (t : String) (k i : ℕ), i < (df.colD t).length →
      ((lagFeaturesF df t [k]).colD (t ++ "_lag_" ++ toString k)).getD i none
        = if i < k then none else (df.colD t).getD (i - k) none)
    ∧ (lagFeaturesF exampleFrame "temperature_2m_mean" [1]).colD
        "temperature_2m_mean_lag_1" = [none, some 1, some 2, some 3, some 4]
    ∧ (lagFeaturesF exampleFrame "temperature_2m_mean" [1]).dropna.colD
        "temperature_2m_mean_lag_1" = [some 1, some 2, some 3, some 4]
    ∧ (lagFeaturesF exampleFrame "temperature_2m_mean" [1]).dropna.colD
        "temperature_2m_mean" = [some 2, some 3, some 4, some 5] := by
  refine ⟨?_, rfl, rfl, rfl⟩
  intro df t k i hi
  have e : lagFeaturesF df t [k]
      = df.addCol (t ++ "_lag_" ++ toString k) (shiftCol k (df.colD t)) := rfl
  rw [e, addCol_colD, shiftCol_getD _ _ _ hi]

/-- C7 witness: lag 2 read at row 3 of the example frame. -/
theorem c7_witness :
    ((lagFeaturesF exampleFrame "temperature_2m_mean" [2]).colD
        ("temperature_2m_mean" ++ "_lag_" ++ toString 2)).getD 3 none
      = if 3 < 2 then none
        else (exampleFrame.colD "temperature_2m_mean").getD (3 - 2) none :=
  c7_lag_features.1 exampleFrame "temperature_2m_mean" 2 3 (by decide)

/-- A 7-row frame whose target is constantly 0. -/
def c8FrameA : Frame :=
  ⟨List.replicate 7 ⟨0, 1, 1⟩,
   [("t", [some 0, some 0, some 0, some 0, some 0, some 0, some 0])]⟩

/-- Same as `c8FrameA` on rows 0–5 but with target 7 at row 6. -/
def c8FrameB : Frame :=
  ⟨List.replicate 7 ⟨0, 1, 1⟩,
   [("t", [some 0, some 0, some 0, some 0, some 0, some 0, some 7])]⟩

/-- C8 counterexample: the rolling mean at row 6 is not a function of rows
≤ 5 only — two frames that agree on rows 0–5 but differ at row 6 get
different `rolling_mean_7` values at row 6 (0 vs 1), because pandas rolling
windows include the current row. -/
theorem c8_counterexample :
    (c8FrameA.colD "t").take 6 = (c8FrameB.colD "t").take 6
    ∧ ((rollingFeaturesF c8FrameA "t" [7]).colD
          ("t" ++ "_rolling_mean_" ++ toString 7)).getD 6 none
        ≠ ((rollingFeaturesF c8FrameB "t" [7]).colD
          ("t" ++ "_rolling_mean_" ++ toString 7)).getD 6 none := by
  refine ⟨rfl, ?_⟩
  have eA : ((rollingFeaturesF c8FrameA "t" [7]).colD
      ("t" ++ "_rolling_mean_" ++ toString 7)).getD 6 none
      = some (npMeanR [0, 0, 0, 0, 0, 0, 0]) := rfl
  have eB : ((rollingFeaturesF c8FrameB "t" [7]).colD
      ("t" ++ "_rolling_mean_" ++ toString 7)).getD 6 none
      = some (npMeanR [0, 0, 0, 0, 0, 0, 7]) := rfl
  rw [eA, eB]
  intro heq
  simp only [Option.some.injEq] at heq
  norm_num [npMeanR] at heq

/-- C8 amended: lag features at row `i` read only row `i − k` (strictly
earlier for `k ≥ 1`); rolling features at row `i` are trailing statistics over
the window of `w` rows ending at — and including — row `i`, so they are a
function of rows ≤ `i` (not ≤ `i − 1`), undefined until the window is full;
and `dropna` removes underfull rows, with every surviving value a defined
value of the original column — never imputed. -/
theorem c8_amended :
    (∀ (df1 df2 : Frame) (t : String) (k i : ℕ), 1 ≤ k →
      i < (df1.colD t).length → i < (df2.colD t).length →
      (df1.colD t).take i = (df2.colD t).take i →
      ((lagFeaturesF df1 t [k]).colD (t ++ "_lag_" ++ toString k)).getD i none
        = ((lagFeaturesF df2 t [k]).colD (t ++ "_lag_" ++ toString k)).getD i none)
    ∧ (∀ (df1 df2 : Frame) (t : String) (w i : ℕ),
      i < (df1.colD t).length → i < (df2.colD t).length →
      (df1.colD t).take (i + 1) = (df2.colD t).take (i + 1) →
      ((rollingFeaturesF df1 t [w]).colD
          (t ++ "_rolling_mean_" ++ toString w)).getD i none
        = ((rollingFeaturesF df2 t [w]).colD
          (t ++ "_rolling_mean_" ++ toString w)).getD i none
      ∧ ((rollingFeaturesF df1 t [w]).colD
          (t ++ "_rolling_std_" ++ toString w)).getD i none
        = ((rollingFeaturesF df2 t [w]).colD
          (t ++ "_rolling_std_" ++ toString w)).getD i none)
    ∧ (∀ (df : Frame) (t : String) (w i : ℕ), i < (df.colD t).length →
      i + 1 < w →
      ((rollingFeaturesF df t [w]).colD
          (t ++ "_rolling_mean_" ++ toString w)).getD i none = none)
    ∧ (∀ (df : Frame) (name : String) (x : Option ℝ),
      x ∈ df.dropna.colD name → x.isSome = true ∧ x ∈ df.colD name) := by
  refine ⟨?_, ?_, ?_, dropna_mem⟩
  · intro df1 df2 t k i hk h1 h2 htake
    have e1 : lagFeaturesF df1 t [k]
        = df1.addCol (t ++ "_lag_" ++ toString k) (shiftCol k (df1.colD t)) := rfl
    have e2 : lagFeaturesF df2 t [k]
        = df2.addCol (t ++ "_lag_" ++ toString k) (shiftCol k (df2.colD t)) := rfl
    rw [e1, e2, addCol_colD, addCol_colD, shiftCol_getD _ _ _ h1,
      shiftCol_getD _ _ _ h2]
    by_cases hik : i < k
    · rw [if_pos hik, if_pos hik]
    · rw [if_neg hik, if_neg hik]
      exact getD_eq_of_take_eq htake (by omega) none
  · intro df1 df2 t w i h1 h2 htake
    have hwin : rollingWindow w (df1.colD t) i = rollingWindow w (df2.colD t) i := by
      unfold rollingWindow
      rw [htake]
    constructor
    · rw [rollingF_colD_mean, rollingF_colD_mean, rollingMeanCol_getD _ _ _ h1,
        rollingMeanCol_getD _ _ _ h2, hwin]
    · rw [rollingF_colD_std, rollingF_colD_std, rollingStdCol_getD _ _ _ h1,
        rollingStdCol_getD _ _ _ h2, hwin]
  · intro df t w i hi hw
    rw [rollingF_colD_mean, rollingMeanCol_getD _ _ _ hi, if_pos (Or.inl hw)]

/-- C8 witness: the amended statement applied at concrete frames and rows. -/
theorem c8_witness :
    ((lagFeaturesF c8FrameA "t" [1]).colD ("t" ++ "_lag_" ++ toString 1)).getD 6 none
      = ((lagFeaturesF c8FrameB "t" [1]).colD ("t" ++ "_lag_" ++ toString 1)).getD 6 none
    ∧ ((rollingFeaturesF c8FrameA "t" [7]).colD
        ("t" ++ "_rolling_mean_" ++ toString 7)).getD 5 none
      = ((rollingFeaturesF c8FrameB "t" [7]).colD
        ("t" ++ "_rolling_mean_" ++ toString 7)).getD 5 none
    ∧ ((rollingFeaturesF c8FrameA "t" [7]).colD
        ("t" ++ "_rolling_mean_" ++ toString 7)).getD 3 none = none
    ∧ ((some (0 : ℝ)).isSome = true ∧ some (0 : ℝ) ∈ c8FrameA.colD "t") :=
  ⟨c8_amended.1 c8FrameA c8FrameB "t" 1 6 (by decide) (by decide) (by decide) rfl,
   (c8_amended.2.1 c8FrameA c8FrameB "t" 7 5 (by decide) (by decide) rfl).1,
   c8_amended.2.2.1 c8FrameA "t" 7 3 (by decide) (by decide),
   c8_amended.2.2.2 c8FrameA "t" (some 0) (by
     show some (0 : ℝ) ∈ [some 0, some 0, some 0, some 0, some 0, some 0, some 0]
     exact List.mem_cons_self _ _)⟩

/-! ### The heap model: feature operations work on a copy (C10) -/

/-- A pandas-level heap of frame objects; a python variable holding a frame is
an index into it. -/
abbrev Heap := List Frame

/-- `create_time_features(df)`: `df = df.copy()` allocates a fresh frame, the
column assignments mutate only that copy, and the copy is returned. -/
noncomputable def create_time_features (h : Heap) (r : ℕ) : Heap × ℕ :=
  (h ++ [timeFeaturesF (h.getD r default)], h.length)

/-- `create_lag_features(df, target_col, lags)` on the heap, same discipline. -/
def create_lag_features (h : Heap) (r : ℕ) (target : String)
    (lags : List ℕ := [1, 2, 3, 7]) : Heap × ℕ :=
  (h ++ [lagFeaturesF (h.getD r default) target lags], h.length)

/-- `create_rolling_features(df, target_col, windows)` on the heap. -/
noncomputable def create_rolling_features (h : Heap) (r : ℕ) (target : String)
    (windows : List ℕ := [7, 14, 30]) : Heap × ℕ :=
  (h ++ [rollingFeaturesF (h.getD r default) target windows], h.length)

theorem heap_getD_append (h : Heap) (x : Frame) (r : ℕ) (hr : r < h.length) :
    (h ++ [x]).getD r default = h.getD r default := by
  rw [List.getD_eq_getElem?_getD, List.getD_eq_getElem?_getD, List.getElem?_append,
    if_pos hr]

theorem heap_getD_append_last (h : Heap) (x : Frame) :
    (h ++ [x]).getD h.length default = x := by
  rw [List.getD_eq_getElem?_getD, List.getElem?_append, if_neg (lt_irrefl _)]
  simp

/-- C10: each feature-engineering operation works on a copy: the caller's
frame is unchanged (every column and row value identical), the returned
reference is a fresh one, and it holds the feature-extended copy. -/
theorem c10_feature_ops_pure (h : Heap) (r : ℕ) (target : String)
    (lags windows : List ℕ) (hr : r < h.length) :
    ((create_time_features h r).1.getD r default = h.getD r default
      ∧ (create_time_features h r).2 ≠ r
      ∧ (create_time_features h r).1.getD (create_time_features h r).2 default
          = timeFeaturesF (h.getD r default))
    ∧ ((create_lag_features h r target lags).1.getD r default = h.getD r default
      ∧ (create_lag_features h r target lags).2 ≠ r
      ∧ (create_lag_features h r target lags).1.getD
          (create_lag_features h r target lags).2 default
          = lagFeaturesF (h.getD r default) target lags)
    ∧ ((create_rolling_features h r target windows).1.getD r default
          = h.getD r default
      ∧ (create_rolling_features h r target windows).2 ≠ r
      ∧ (create_rolling_features h r target windows).1.getD
          (create_rolling_features h r target windows).2 default
          = rollingFeaturesF (h.getD r default) target windows) := by
  refine ⟨⟨?_, ?_, ?_⟩, ⟨?_, ?_, ?_⟩, ⟨?_, ?_, ?_⟩⟩
  · exact heap_getD_append _ _ _ hr
  · exact Nat.ne_of_gt hr
  · exact heap_getD_append_last _ _
  · exact heap_getD_append _ _ _ hr
  · exact Nat.ne_of_gt hr
  · exact heap_getD_append_last _ _
  · exact heap_getD_append _ _ _ hr
  · exact Nat.ne_of_gt hr
  · exact heap_getD_append_last _ _

/-- C10 witness: a one-frame heap; all three operations leave slot 0 intact. -/
theorem c10_witness :
    (create_time_features [exampleFrame] 0).1.getD 0 default
      = [exampleFrame].getD 0 default
    ∧ (create_lag_features [exampleFrame] 0 "temperature_2m_mean" [1]).1.getD 0 default
      = [exampleFrame].getD 0 default
    ∧ (create_rolling_features [exampleFrame] 0 "temperature_2m_mean" [7]).1.getD 0
        default = [exampleFrame].getD 0 default :=
  ⟨(c10_feature_ops_pure [exampleFrame] 0 "temperature_2m_mean" [1] [7]
      (by decide)).1.1,
   (c10_feature_ops_pure [exampleFrame] 0 "temperature_2m_mean" [1] [7]
      (by decide)).2.1.1,
   (c10_feature_ops_pure [exampleFrame] 0 "temperature_2m_mean" [1] [7]
      (by decide)).2.2.1⟩

end Prediksi

namespace Prediksi

/-! ### Model training results (`train_lstm`, `train_xgboost`)

The fitted network / tree ensemble and the fitted scaler are training
artifacts of third-party libraries; they enter the embedding as the black-box
one-step predictor `predict` (and, for XGBoost, the calendar feature row
`calFeats k` of the `k`-th future date).  The autoregressive rollout, the
min-max scaling, the lag/rolling feature rows of the future loop and the
`± std` bounds are embedded from the source. -/

structure ForecastResult where
  forecast : List ℝ
  lower_bound : List ℝ
  upper_bound : List ℝ

/-- `xs[-n:]`. -/
def lastN {α : Type} (n : ℕ) (xs : List α) : List α := xs.drop (xs.length - n)

/-- `np.std`: population standard deviation (`ddof=0`). -/
noncomputable def npStdR (xs : List ℝ) : ℝ :=
  Real.sqrt ((xs.map (fun x => (x - npMeanR xs) ^ 2)).sum / xs.length)

noncomputable def listMinR : List ℝ → ℝ
  | [] => 0
  | x :: xs => xs.foldl min x

noncomputable def listMaxR : List ℝ → ℝ
  | [] => 0
  | x :: xs => xs.foldl max x

/-- The LSTM forecast loop: predict one step from the current window, emit it,
slide the window (`np.append(last_sequence[1:], pred)`), repeat. -/
def lstmRollout (predict : List ℝ → ℝ) : ℕ → List ℝ → List ℝ
  | 0, _ => []
  | n + 1, window =>
    let p := predict window
    p :: lstmRollout predict n (window.drop 1 ++ [p])

/-- The point forecasts of `train_lstm`: min-max scale the data
(`(x - min) / (max - min)`; a zero range, impossible here only for constant
data, yields 0 in this model where sklearn divides by 1 — the scaled values
are 0 either way), roll out `forecast_days` steps from the last `lookback`
scaled values, and inverse-transform. -/
noncomputable def lstmForecasts (predict : List ℝ → ℝ) (data : List ℝ)
    (forecast_days lookback : ℕ) : List ℝ :=
  let mn := listMinR data
  let mx := listMaxR data
  let scaled := data.map (fun x => (x - mn) / (mx - mn))
  (lstmRollout predict forecast_days (scaled.drop (scaled.length - lookback))).map
    (fun yv => yv * (mx - mn) + mn)

/-- `train_lstm`: point forecasts from the autoregressive rollout, bounds
`forecast ± np.std(data[-30:])`. -/
noncomputable def train_lstm (predict : List ℝ → ℝ) (data : List ℝ)
    (forecast_days : ℕ) (lookback : ℕ := 30) : ForecastResult :=
  ⟨lstmForecasts predict data forecast_days lookback,
   (lstmForecasts predict data forecast_days lookback).map
     (· - npStdR (lastN 30 data)),
   (lstmForecasts predict data forecast_days lookback).map
     (· + npStdR (lastN 30 data))⟩

/-- One `future_row` of the XGBoost loop: the calendar features of the `k`-th
future date, the lag features read from
`recent_temps = list(df[target].tail(7)) + forecasts` (value `recent[-lag]`,
or the series mean when too short), and the trailing rolling statistics of
the actual history (constant over the loop). -/
def xgbFutureRow (calFeats : ℕ → List ℝ) (histTail : List ℝ) (meanVal : ℝ)
    (rollFeats : List ℝ) (forecasts : List ℝ) (k : ℕ) : List ℝ :=
  calFeats k
    ++ ([1, 2, 3, 7].map (fun lag =>
          let recent := histTail ++ forecasts
          if lag ≤ recent.length then recent.getD (recent.length - lag) 0
          else meanVal))
    ++ rollFeats

/-- The XGBoost future loop: `forecasts.append(model.predict(row))` over the
`forecast_days` future dates, each row built from history plus the forecasts
produced so far. -/
def xgbForecasts (predict : List ℝ → ℝ) (calFeats : ℕ → List ℝ)
    (histTail : List ℝ) (meanVal : ℝ) (rollFeats : List ℝ) (n : ℕ) : List ℝ :=
  (List.range n).foldl (fun fs k =>
    fs ++ [predict (xgbFutureRow calFeats histTail meanVal rollFeats fs k)]) []

/-- The training series of `train_xgboost` after feature engineering
(calendar + lags 1,2,3,7 + rolling 7,14) and `dropna`. -/
noncomputable def xgbY (df : Frame) : List ℝ :=
  ((rollingFeaturesF (lagFeaturesF (timeFeaturesF df) "temperature_2m_mean"
      [1, 2, 3, 7]) "temperature_2m_mean" [7, 14]).dropna.colD
    "temperature_2m_mean").filterMap id

noncomputable def xgbForecastList (predict : List ℝ → ℝ) (calFeats : ℕ → List ℝ)
    (df : Frame) (forecast_days : ℕ) : List ℝ :=
  xgbForecasts predict calFeats (lastN 7 (xgbY df)) (npMeanR (xgbY df))
    [npMeanR (lastN 7 (xgbY df)), sampleStdR (lastN 7 (xgbY df)),
     npMeanR (lastN 14 (xgbY df)), sampleStdR (lastN 14 (xgbY df))]
    forecast_days

/-- `train_xgboost`: autoregressive forecasts over the engineered frame,
bounds `forecast ± np.std(y[-30:])`. -/
noncomputable def train_xgboost (predict : List ℝ → ℝ) (calFeats : ℕ → List ℝ)
    (df : Frame) (forecast_days : ℕ) : ForecastResult :=
  ⟨xgbForecastList predict calFeats df forecast_days,
   (xgbForecastList predict calFeats df forecast_days).map
     (· - npStdR (lastN 30 (xgbY df))),
   (xgbForecastList predict calFeats df forecast_days).map
     (· + npStdR (lastN 30 (xgbY df)))⟩

theorem lstmRollout_length (predict : List ℝ → ℝ) :
    ∀ (n : ℕ) (window : List ℝ), (lstmRollout predict n window).length = n := by
  intro n
  induction n with
  | zero => intro window; rfl
  | succ n ih =>
    intro window
    rw [lstmRollout]
    simp [ih]

theorem xgbForecasts_length (predict : List ℝ → ℝ) (calFeats : ℕ → List ℝ)
    (histTail : List ℝ) (meanVal : ℝ) (rollFeats : List ℝ) (n : ℕ) :
    (xgbForecasts predict calFeats histTail meanVal rollFeats n).length = n := by
  suffices h : ∀ (m : ℕ) (acc : List ℝ),
      ((List.range m).foldl (fun fs k =>
        fs ++ [predict (xgbFutureRow calFeats histTail meanVal rollFeats fs k)])
        acc).length = acc.length + m by
    simpa [xgbForecasts] using h n []
  intro m
  induction m with
  | zero => intro acc; simp
  | succ m ih =>
    intro acc
    rw [List.range_succ, List.foldl_append]
    simp [ih]
    omega

theorem forall2_map_sub (l : List ℝ) (c : ℝ) (hc : 0 ≤ c) :
    List.Forall₂ (· ≤ ·) (l.map (· - c)) l := by
  induction l with
  | nil => simp
  | cons x xs ih => exact List.Forall₂.cons (by show x - c ≤ x; linarith) ih

theorem forall2_map_add (l : List ℝ) (c : ℝ) (hc : 0 ≤ c) :
    List.Forall₂ (· ≤ ·) l (l.map (· + c)) := by
  induction l with
  | nil => simp
  | cons x xs ih => exact List.Forall₂.cons (by show x ≤ x + c; linarith) ih

/-- C1: for the LSTM and XGBoost variants, the forecast and both bound
sequences all have the requested horizon as length, and
`lower_bound[i] ≤ forecast[i] ≤ upper_bound[i]` at every index, because the
bounds are `forecast ± std` with `std` a (nonnegative) standard deviation. -/
theorem c1_forecast_result_invariants :
    (∀ (predict : List ℝ → ℝ) (data : List ℝ) (H lookback : ℕ),
      (train_lstm predict data H lookback).forecast.length = H
      ∧ (train_lstm predict data H lookback).lower_bound.length = H
      ∧ (train_lstm predict data H lookback).upper_bound.length = H
      ∧ List.Forall₂ (· ≤ ·) (train_lstm predict data H lookback).lower_bound
          (train_lstm predict data H lookback).forecast
      ∧ List.Forall₂ (· ≤ ·) (train_lstm predict data H lookback).forecast
          (train_lstm predict data H lookback).upper_bound)
    ∧ (∀ (predict : List ℝ → ℝ) (calFeats : ℕ → List ℝ) (df : Frame) (H : ℕ),
      (train_xgboost predict calFeats df H).forecast.length = H
      ∧ (train_xgboost predict calFeats df H).lower_bound.length = H
      ∧ (train_xgboost predict calFeats df H).upper_bound.length = H
      ∧ List.Forall₂ (· ≤ ·) (train_xgboost predict calFeats df H).lower_bound
          (train_xgboost predict calFeats df H).forecast
      ∧ List.Forall₂ (· ≤ ·) (train_xgboost predict calFeats df H).forecast
          (train_xgboost predict calFeats df H).upper_bound) := by
  constructor
  · intro predict data H lookback
    have hlen : (lstmForecasts predict data H lookback).length = H := by
      unfold lstmForecasts
      simp [lstmRollout_length]
    have hstd : 0 ≤ npStdR (lastN 30 data) := Real.sqrt_nonneg _
    exact ⟨hlen, by simpa [train_lstm] using hlen, by simpa [train_lstm] using hlen,
      forall2_map_sub _ _ hstd, forall2_map_add _ _ hstd⟩
  · intro predict calFeats df H
    have hlen : (xgbForecastList predict calFeats df H).length = H := by
      unfold xgbForecastList
      exact xgbForecasts_length _ _ _ _ _ _
    have hstd : 0 ≤ npStdR (lastN 30 (xgbY df)) := Real.sqrt_nonneg _
    exact ⟨hlen, by simpa [train_xgboost] using hlen, by simpa [train_xgboost] using hlen,
      forall2_map_sub _ _ hstd, forall2_map_add _ _ hstd⟩

end Prediksi
